import Mathlib

/-!
Shallow embedding of the per-sample DSP core of the underbrush audio
processor (src/analog_console.rs and src/auto_compressor.rs), with the
`f32` arithmetic of the source modelled over the real numbers.  Rust's
`VecDeque<f32>` delay queue is modelled as a `List ℝ` whose head is the
front (oldest element); `push_back` appends, `pop_front` takes the head.
Rust's saturating float-to-`usize` cast is modelled by `Nat.floor`, which
is `0` on negative reals, matching the saturating behaviour.
-/

noncomputable section

open Real

/-- Rust `f32::clamp(lo, hi)` on reals (for `lo ≤ hi`, and finite inputs). -/
def rustClamp (x lo hi : ℝ) : ℝ := max lo (min x hi)

/-- Rust `as usize` on a nonnegative `f32`: truncation toward zero; on a
negative value the cast saturates to `0`, which `Nat.floor` also does. -/
def rustUsize (x : ℝ) : ℕ := ⌊x⌋₊

/-- State of `AllpassFilter` (src/analog_console.rs). -/
structure AllpassFilter where
  a1 : ℝ
  z1 : ℝ
  sample_rate : ℝ

namespace AllpassFilter

/-- `AllpassFilter::calculate_coefficient`. -/
def calculate_coefficient (freq_hz sample_rate : ℝ) : ℝ :=
  let t := Real.tan (Real.pi * freq_hz / sample_rate)
  (t - 1) / (t + 1)

/-- `AllpassFilter::new`. -/
def new (sample_rate freq_hz : ℝ) : AllpassFilter :=
  { a1 := calculate_coefficient freq_hz sample_rate
    z1 := 0
    sample_rate := sample_rate }

/-- `AllpassFilter::get_frequency`: inverse calculation of the coefficient. -/
def get_frequency (st : AllpassFilter) : ℝ :=
  let t_minus_one := st.a1
  let t_plus_one := (1 : ℝ)
  let t := (t_minus_one + t_plus_one) / (t_plus_one - t_minus_one)
  st.sample_rate * Real.arctan t / Real.pi

/-- `AllpassFilter::set_sample_rate`: the field `sample_rate` is assigned
before `get_frequency` is consulted, exactly as in the source. -/
def set_sample_rate (st : AllpassFilter) (new_sample_rate : ℝ) : AllpassFilter :=
  let st1 : AllpassFilter := { st with sample_rate := new_sample_rate }
  { st1 with a1 := calculate_coefficient st1.get_frequency st1.sample_rate }

/-- `AllpassFilter::set_frequency`. -/
def set_frequency (st : AllpassFilter) (freq_hz : ℝ) : AllpassFilter :=
  { st with a1 := calculate_coefficient freq_hz st.sample_rate }

/-- `AllpassFilter::process`: returns the updated filter and the output. -/
def process (st : AllpassFilter) (input : ℝ) : AllpassFilter × ℝ :=
  let output := st.a1 * input + st.z1
  ({ st with z1 := input - st.a1 * output }, output)

end AllpassFilter

/-- State of `DCBlocker` (src/analog_console.rs). -/
structure DCBlocker where
  r : ℝ
  x1 : ℝ
  y1 : ℝ

namespace DCBlocker

/-- `DCBlocker::new`. -/
def new (r : ℝ) : DCBlocker :=
  { r := rustClamp r 0.9 0.999, x1 := 0, y1 := 0 }

/-- `DCBlocker::process`: returns the updated blocker and the output. -/
def process (st : DCBlocker) (input : ℝ) : DCBlocker × ℝ :=
  let output := input - st.x1 + st.r * st.y1
  ({ r := st.r, x1 := input, y1 := output }, output)

end DCBlocker

/-- State of `DCPhaseLinearizer` (src/analog_console.rs); the `VecDeque`
`buffer` is a list with the oldest element at the head. -/
structure DCPhaseLinearizer where
  sample_rate : ℝ
  corner_freq : ℝ
  buffer : List ℝ
  allpass_filter : AllpassFilter
  delay_samples : ℕ

namespace DCPhaseLinearizer

/-- `VecDeque::resize(n, 0.0)`: truncates at the back when shrinking,
appends zeros at the back when growing. -/
def resizeDeque (l : List ℝ) (n : ℕ) : List ℝ :=
  if n ≤ l.length then l.take n else l ++ List.replicate (n - l.length) 0

/-- Delay recomputation `(sample_rate / (PI * corner_freq) - 1.0).max(0.0) as usize`
shared by `set_sample_rate` and `set_corner_frequency`. -/
def newDelay (sample_rate corner_freq : ℝ) : ℕ :=
  rustUsize (max (sample_rate / (Real.pi * corner_freq) - 1) 0)

/-- `DCPhaseLinearizer::new`. -/
def new (sample_rate corner_freq_hz : ℝ) : DCPhaseLinearizer :=
  let allpass := AllpassFilter.new sample_rate corner_freq_hz
  let delay_samples := rustUsize (sample_rate / corner_freq_hz * 0.25)
  { sample_rate := sample_rate
    corner_freq := corner_freq_hz
    buffer := List.replicate delay_samples 0
    allpass_filter := allpass
    delay_samples := delay_samples }

/-- `DCPhaseLinearizer::set_sample_rate`. -/
def set_sample_rate (st : DCPhaseLinearizer) (new_sample_rate : ℝ) : DCPhaseLinearizer :=
  let st1 : DCPhaseLinearizer :=
    { st with sample_rate := new_sample_rate
              allpass_filter := st.allpass_filter.set_sample_rate new_sample_rate }
  let new_delay := newDelay st1.sample_rate st1.corner_freq
  if new_delay ≠ st1.delay_samples then
    { st1 with delay_samples := new_delay, buffer := resizeDeque st1.buffer new_delay }
  else st1

/-- `DCPhaseLinearizer::set_corner_frequency`. -/
def set_corner_frequency (st : DCPhaseLinearizer) (freq_hz : ℝ) : DCPhaseLinearizer :=
  let cf := rustClamp freq_hz 20 800
  let st1 : DCPhaseLinearizer :=
    { st with corner_freq := cf
              allpass_filter := st.allpass_filter.set_frequency cf }
  let new_delay := newDelay st1.sample_rate st1.corner_freq
  if new_delay ≠ st1.delay_samples then
    { st1 with delay_samples := new_delay, buffer := resizeDeque st1.buffer new_delay }
  else st1

/-- `DCPhaseLinearizer::process`: push the allpass output at the back, pop
the front (the `else 0.0` arm of the source's `pop_front` match is the
`headD` default), blend, and return the updated state with the output. -/
def process (st : DCPhaseLinearizer) (input : ℝ) : DCPhaseLinearizer × ℝ :=
  let apres := st.allpass_filter.process input
  let allpass_out := apres.2
  let buf1 := st.buffer ++ [allpass_out]
  let delayed := buf1.headD 0
  let buf2 := buf1.tail
  let crossover_coeff := (0.3 : ℝ)
  let low_mix_alt := input * crossover_coeff + delayed * (1 - crossover_coeff)
  let output := low_mix_alt * 0.7 + allpass_out * 0.3
  ({ st with buffer := buf2, allpass_filter := apres.1 }, output)

end DCPhaseLinearizer

/-- The eight saturation variants (src/analog_console.rs). -/
inductive SaturationType where
  | Tape
  | Tube
  | Transistor
  | LDR
  | Cubic
  | Quintic
  | SoftClip
  | Bypass
deriving DecidableEq

/-- State of `AnalogConsoleProcessor` (src/analog_console.rs). -/
structure AnalogConsoleProcessor where
  drive : ℝ
  saturation_type : SaturationType
  crosstalk_amount : ℝ
  _prev_left : ℝ
  _prev_right : ℝ
  _dc_blocker_left : DCBlocker
  _dc_blocker_right : DCBlocker
  phase_linearizer_left : DCPhaseLinearizer
  phase_linearizer_right : DCPhaseLinearizer

namespace AnalogConsoleProcessor

/-- `AnalogConsoleProcessor::new`. -/
def new (sample_rate : ℝ) : AnalogConsoleProcessor :=
  { drive := 0.5
    saturation_type := SaturationType.Tape
    crosstalk_amount := 0.05
    _prev_left := 0
    _prev_right := 0
    _dc_blocker_left := DCBlocker.new 0.995
    _dc_blocker_right := DCBlocker.new 0.995
    phase_linearizer_left := DCPhaseLinearizer.new sample_rate 30
    phase_linearizer_right := DCPhaseLinearizer.new sample_rate 30 }

/-- `AnalogConsoleProcessor::set_drive`. -/
def set_drive (p : AnalogConsoleProcessor) (drive : ℝ) : AnalogConsoleProcessor :=
  { p with drive := rustClamp drive 1 10 }

/-- `AnalogConsoleProcessor::set_crosstalk`. -/
def set_crosstalk (p : AnalogConsoleProcessor) (amount : ℝ) : AnalogConsoleProcessor :=
  { p with crosstalk_amount := rustClamp amount 0 0.3 }

/-- `AnalogConsoleProcessor::saturate`. -/
def saturate (p : AnalogConsoleProcessor) (sample : ℝ) : ℝ :=
  let driven := sample * p.drive
  match p.saturation_type with
  | SaturationType.Tape =>
      let factor := p.drive + 1
      Real.tanh (sample * factor) * 0.5
  | SaturationType.Tube =>
      if 0 ≤ driven then 1 - Real.exp (-driven) else -1 + Real.exp driven
  | SaturationType.Transistor =>
      driven / (1 + (abs driven) ^ (1.5 : ℝ)) * 1.2
  | SaturationType.LDR =>
      let control_signal := rustClamp (abs driven) 0 1
      let resistance := 1 / (0.1 + control_signal * 5)
      let saturation_scaler := (0.83 : ℝ)
      driven / (1 + resistance * saturation_scaler)
  | SaturationType.Cubic =>
      sample + p.drive * sample * sample * sample
  | SaturationType.Quintic =>
      let drive1 := 0.5 * p.drive
      let drive2 := 0.3 * p.drive
      sample + drive1 * sample ^ 3 + drive2 * sample ^ 5
  | SaturationType.SoftClip =>
      driven / (1 + abs driven)
  | SaturationType.Bypass =>
      driven

/-- `AnalogConsoleProcessor::process`: saturation, crosstalk, one-pole
smoothing, DC blocking, phase linearization; returns the updated state and
the stereo output pair. -/
def process (p : AnalogConsoleProcessor) (left right : ℝ) :
    AnalogConsoleProcessor × (ℝ × ℝ) :=
  let left_sat := p.saturate left
  let right_sat := p.saturate right
  let left_cross := (1 - p.crosstalk_amount) * left_sat + p.crosstalk_amount * right_sat
  let right_cross := (1 - p.crosstalk_amount) * right_sat + p.crosstalk_amount * left_sat
  let left_smooth := 0.9 * left_cross + 0.1 * p._prev_left
  let right_smooth := 0.9 * right_cross + 0.1 * p._prev_right
  let dcl := p._dc_blocker_left.process left_smooth
  let dcr := p._dc_blocker_right.process right_smooth
  let pll := p.phase_linearizer_left.process dcl.2
  let plr := p.phase_linearizer_right.process dcr.2
  ({ p with
      _prev_left := left_cross
      _prev_right := right_cross
      _dc_blocker_left := dcl.1
      _dc_blocker_right := dcr.1
      phase_linearizer_left := pll.1
      phase_linearizer_right := plr.1 },
   (pll.2, plr.2))

end AnalogConsoleProcessor

/-- State of `SimpleAutoCompressor` (src/auto_compressor.rs). -/
structure SimpleAutoCompressor where
  sample_rate : ℝ
  envelope : ℝ
  gain_reduction : ℝ
  attack_coeff : ℝ
  release_coeff : ℝ
  peak_average : ℝ
  input_level : ℝ
  output_level : ℝ
  gain_reduction_db : ℝ

namespace SimpleAutoCompressor

/-- `SimpleAutoCompressor::new`. -/
def new (sample_rate : ℝ) : SimpleAutoCompressor :=
  let attack_ms := (15 : ℝ)
  let release_ms := (200 : ℝ)
  { sample_rate := sample_rate
    envelope := 0
    gain_reduction := 1
    attack_coeff := Real.exp (-1 / (attack_ms * 0.001 * sample_rate))
    release_coeff := Real.exp (-1 / (release_ms * 0.001 * sample_rate))
    peak_average := 0
    input_level := 0
    output_level := 0
    gain_reduction_db := 0 }

/-- `SimpleAutoCompressor::calculate_dynamic_ratio`. -/
def calculate_dynamic_ratio (excess_db : ℝ) : ℝ :=
  let minR := (1.5 : ℝ)
  let maxR := (4.0 : ℝ)
  let clamped_excess := min excess_db 20
  minR + (clamped_excess / 20) * (maxR - minR)

/-- Envelope update of `SimpleAutoCompressor::process`: asymmetric
attack/release one-pole blend toward `|input|`. -/
def updatedEnvelope (c : SimpleAutoCompressor) (input : ℝ) : ℝ :=
  let input_abs := |input|
  if input_abs > c.envelope then
    input_abs * (1 - c.attack_coeff) + c.envelope * c.attack_coeff
  else
    input_abs * (1 - c.release_coeff) + c.envelope * c.release_coeff

/-- Adaptive threshold of `SimpleAutoCompressor::process`: half of the
updated peak average. -/
def thresholdAfter (c : SimpleAutoCompressor) (input : ℝ) : ℝ :=
  (0.995 * c.peak_average + 0.005 * updatedEnvelope c input) * 0.5

/-- `SimpleAutoCompressor::process`: returns the updated state and the
output sample. -/
def process (c : SimpleAutoCompressor) (input : ℝ) : SimpleAutoCompressor × ℝ :=
  let new_input_level := 0.9 * c.input_level + 0.1 * |input|
  let envelope := updatedEnvelope c input
  let peak_average := 0.995 * c.peak_average + 0.005 * envelope
  let threshold := peak_average * 0.5
  let gain_reduction :=
    if envelope ≤ threshold then (1 : ℝ)
    else
      let excess_db := 20 * Real.logb 10 (envelope / threshold)
      let ratio0 := calculate_dynamic_ratio excess_db
      let reduction_db := excess_db - excess_db / ratio0
      let target_gain := (10 : ℝ) ^ (-reduction_db / 20)
      0.9 * c.gain_reduction + 0.1 * target_gain
  let output := input * gain_reduction
  let makeup_gain := (1.4 : ℝ)
  let output_with_makeup := output * makeup_gain
  ({ c with
      envelope := envelope
      gain_reduction := gain_reduction
      peak_average := peak_average
      input_level := new_input_level
      output_level := 0.9 * c.output_level + 0.1 * |output_with_makeup|
      gain_reduction_db := -20 * Real.logb 10 gain_reduction },
   output_with_makeup)

end SimpleAutoCompressor

/-- Variant-specific bound used for the saturation boundedness property
on the domain `sample ∈ [-10,10]`, `drive ∈ [1,10]`. -/
def satBound : SaturationType → ℝ
  | SaturationType.Tape => 0.5
  | SaturationType.Tube => 1
  | SaturationType.Transistor => 1.2
  | SaturationType.LDR => 100
  | SaturationType.Cubic => 10010
  | SaturationType.Quintic => 310010
  | SaturationType.SoftClip => 1
  | SaturationType.Bypass => 0

/-- Helper: the resize operation always produces a list of the requested
length. -/
lemma length_resizeDeque (l : List ℝ) (n : ℕ) :
    (DCPhaseLinearizer.resizeDeque l n).length = n := by
  unfold DCPhaseLinearizer.resizeDeque
  split_ifs with h
  · simp [List.length_take, Nat.min_eq_left h]
  · simp only [List.length_append, List.length_replicate]
    omega

/-- Helper: the hyperbolic tangent is bounded by one in absolute value. -/
lemma abs_tanh_le_one (x : ℝ) : |Real.tanh x| ≤ 1 := by
  have hc := Real.cosh_pos x
  rw [Real.tanh_eq_sinh_div_cosh, abs_div, abs_of_pos hc, div_le_one hc, abs_le]
  constructor
  · have h := Real.sinh_lt_cosh (-x)
    rw [Real.sinh_neg, Real.cosh_neg] at h
    linarith
  · exact le_of_lt (Real.sinh_lt_cosh x)

/-- Concrete linearizer state used by witnesses: empty delay queue,
`delay_samples = 0`, at 44100 Hz with a 30 Hz corner. -/
def testLinearizer : DCPhaseLinearizer := ⟨44100, 30, [], ⟨1, 0, 44100⟩, 0⟩

/-- Concrete compressor state used by witnesses: zero envelope and peak
average, unit gain reduction, coefficients `1/2`. -/
def testCompressor : SimpleAutoCompressor := ⟨44100, 0, 1, 1/2, 1/2, 0, 0, 0, 0⟩

/-- C8: `AllpassFilter::set_frequency` and `AllpassFilter::set_sample_rate`
never change the state variable `z1` (and `set_frequency` leaves the stored
sample rate unchanged as well): only the coefficient, and for
`set_sample_rate` the stored rate, may change. -/
theorem allpass_setters_preserve_z1 (st : AllpassFilter) (f fs : ℝ) :
    (st.set_frequency f).z1 = st.z1 ∧ (st.set_sample_rate fs).z1 = st.z1 ∧
      (st.set_frequency f).sample_rate = st.sample_rate :=
  ⟨rfl, rfl, rfl⟩

/-- C9: in `AnalogConsoleProcessor::process` the crosstalk mix is
`left_cross = (1-k)·L_sat + k·R_sat` (symmetrically for the right channel),
the value fed onward to the DC blocker is the smoothed
`0.9·cross + 0.1·prev`, and the stored previous value is updated to the
crosstalk-mixed (pre-smoothing) value, not to the smoothed value. -/
theorem console_process_smoothing (p : AnalogConsoleProcessor) (l r : ℝ) :
    (p.process l r).1._prev_left =
        (1 - p.crosstalk_amount) * p.saturate l + p.crosstalk_amount * p.saturate r ∧
    (p.process l r).1._prev_right =
        (1 - p.crosstalk_amount) * p.saturate r + p.crosstalk_amount * p.saturate l ∧
    (p.process l r).1._dc_blocker_left =
        (p._dc_blocker_left.process
          (0.9 * ((1 - p.crosstalk_amount) * p.saturate l + p.crosstalk_amount * p.saturate r) +
            0.1 * p._prev_left)).1 ∧
    (p.process l r).1._dc_blocker_right =
        (p._dc_blocker_right.process
          (0.9 * ((1 - p.crosstalk_amount) * p.saturate r + p.crosstalk_amount * p.saturate l) +
            0.1 * p._prev_right)).1 :=
  ⟨rfl, rfl, rfl, rfl⟩

/-- C6 counterexample: `AnalogConsoleProcessor::new` initializes `drive`
to `0.5`, which is strictly below the claimed lower bound `1`. -/
theorem new_drive_out_of_range :
    (AnalogConsoleProcessor.new 44100).drive = 0.5 ∧
      ¬ (1 ≤ (AnalogConsoleProcessor.new 44100).drive) := by
  constructor
  · rfl
  · show ¬ ((1 : ℝ) ≤ 0.5)
    norm_num

/-- C6 amended: `set_drive` clamps its argument so that `drive ∈ [1,10]`
after every call, for any state and any argument; `new` however
initializes `drive` to `0.5`, outside that range. -/
theorem set_drive_clamps (p : AnalogConsoleProcessor) (d fs : ℝ) :
    1 ≤ (p.set_drive d).drive ∧ (p.set_drive d).drive ≤ 10 ∧
      (AnalogConsoleProcessor.new fs).drive = 0.5 := by
  refine ⟨le_max_left _ _, ?_, rfl⟩
  exact max_le (by norm_num) (min_le_right _ _)

/-- C10 counterexample: with an empty delay queue, the delayed value used
in the blend is the allpass output that was just pushed, not `0`; at the
concrete state below the code outputs `1`, whereas a zero delayed value
would give `0.51`. -/
theorem process_empty_buffer_cex :
    ((⟨44100, 30, [], ⟨1, 0, 44100⟩, 0⟩ : DCPhaseLinearizer).process 1).2 ≠
      (1 * 0.3 + 0 * (1 - 0.3)) * 0.7 +
        ((⟨(1 : ℝ), 0, 44100⟩ : AllpassFilter).process 1).2 * 0.3 := by
  show ((1 : ℝ) * 0.3 + ((1 : ℝ) * 1 + 0) * (1 - 0.3)) * 0.7 + ((1 : ℝ) * 1 + 0) * 0.3 ≠ _
  norm_num [AllpassFilter.process]

/-- C10 amended: in `DCPhaseLinearizer::process`, if the delay queue is
empty before the call, the delayed value used in the output blend is the
allpass output of this very call (pushed before the pop), so the output is
`(input·0.3 + ap·0.7)·0.7 + ap·0.3`. -/
theorem process_empty_buffer_delayed (st : DCPhaseLinearizer) (input : ℝ)
    (h : st.buffer = []) :
    (st.process input).2 =
      (input * 0.3 + (st.allpass_filter.process input).2 * (1 - 0.3)) * 0.7 +
        (st.allpass_filter.process input).2 * 0.3 := by
  simp [DCPhaseLinearizer.process, h]

/-- C10 witness: the amended statement applied at a concrete empty-queue
state and input `1`. -/
theorem process_empty_buffer_delayed_witness :
    ((⟨44100, 30, [], ⟨1, 0, 44100⟩, 0⟩ : DCPhaseLinearizer) : DCPhaseLinearizer).buffer
        = [] ∧
    ((⟨44100, 30, [], ⟨1, 0, 44100⟩, 0⟩ : DCPhaseLinearizer).process 1).2 =
      (1 * 0.3 +
        ((⟨44100, 30, [], ⟨1, 0, 44100⟩, 0⟩ :
            DCPhaseLinearizer).allpass_filter.process 1).2 * (1 - 0.3)) * 0.7 +
        ((⟨44100, 30, [], ⟨1, 0, 44100⟩, 0⟩ :
            DCPhaseLinearizer).allpass_filter.process 1).2 * 0.3 :=
  ⟨rfl, process_empty_buffer_delayed _ 1 rfl⟩

/-- C4: the delay queue length equals `delay_samples` after construction
and after every `process`, `set_corner_frequency`, or `set_sample_rate`
call (given the invariant on entry); moreover immediately after
`set_corner_frequency` the stored `delay_samples` is exactly the newly
computed delay for the clamped frequency. -/
theorem queue_length_invariant (fs f input freq fs2 : ℝ) (st : DCPhaseLinearizer)
    (h : st.buffer.length = st.delay_samples) :
    ((DCPhaseLinearizer.new fs f).buffer.length =
        (DCPhaseLinearizer.new fs f).delay_samples) ∧
    ((st.process input).1.buffer.length = (st.process input).1.delay_samples) ∧
    ((st.set_corner_frequency freq).buffer.length =
        (st.set_corner_frequency freq).delay_samples ∧
      (st.set_corner_frequency freq).delay_samples =
        DCPhaseLinearizer.newDelay st.sample_rate (rustClamp freq 20 800)) ∧
    ((st.set_sample_rate fs2).buffer.length = (st.set_sample_rate fs2).delay_samples) := by
  refine ⟨?_, ?_, ?_, ?_⟩
  · simp [DCPhaseLinearizer.new]
  · have h1 : (st.process input).1.buffer =
        (st.buffer ++ [(st.allpass_filter.process input).2]).tail := rfl
    have h2 : (st.process input).1.delay_samples = st.delay_samples := rfl
    rw [h1, h2, List.length_tail]
    simp [h]
  · simp only [DCPhaseLinearizer.set_corner_frequency]
    split_ifs with hne
    · exact ⟨length_resizeDeque _ _, rfl⟩
    · rw [not_not] at hne
      exact ⟨h, hne.symm⟩
  · simp only [DCPhaseLinearizer.set_sample_rate]
    split_ifs with hne
    · exact length_resizeDeque _ _
    · exact h

/-- C4 witness: the invariant theorem applied at a concrete state with an
empty queue, frequency argument `100` and sample rates `44100`/`48000`. -/
theorem queue_length_invariant_witness :
    testLinearizer.buffer.length = testLinearizer.delay_samples ∧
    ((testLinearizer.set_corner_frequency 100).buffer.length =
      (testLinearizer.set_corner_frequency 100).delay_samples) :=
  ⟨rfl, (queue_length_invariant 44100 30 0 100 48000 testLinearizer rfl).2.2.1.1⟩

/-- C5 counterexample: shrinking the queue via `set_corner_frequency`
keeps the front (oldest) elements, not the most recently pushed ones.  At
8000 Hz with queued values `[1, 2, 3]` (oldest first) and new frequency
800 Hz the new delay is 2 and the queue becomes `[1, 2]`, whereas keeping
the two most recently pushed values would give `[2, 3]`. -/
theorem set_corner_frequency_shrink_cex :
    ((⟨8000, 30, [1, 2, 3], ⟨1, 0, 8000⟩, 3⟩ : DCPhaseLinearizer).set_corner_frequency
        800).buffer = [1, 2] ∧
      ¬ (([1, 2] : List ℝ) = [2, 3]) := by
  have hcf : rustClamp 800 20 800 = (800 : ℝ) := by
    unfold rustClamp
    norm_num
  have hπ1 : (3.14 : ℝ) < Real.pi := Real.pi_gt_d2
  have hπ2 : Real.pi < 3.15 := Real.pi_lt_d2
  have hx2 : (2 : ℝ) ≤ 8000 / (Real.pi * 800) - 1 := by
    rw [le_sub_iff_add_le, le_div_iff₀ (by positivity)]
    nlinarith
  have hx3 : (8000 : ℝ) / (Real.pi * 800) - 1 < 3 := by
    rw [sub_lt_iff_lt_add, div_lt_iff₀ (by positivity)]
    nlinarith
  have hnd : DCPhaseLinearizer.newDelay 8000 (rustClamp 800 20 800) = 2 := by
    rw [hcf]
    unfold DCPhaseLinearizer.newDelay rustUsize
    rw [max_eq_left (by linarith)]
    rw [Nat.floor_eq_iff (by linarith)]
    norm_num
    exact ⟨hx2, by linarith⟩
  constructor
  · simp only [DCPhaseLinearizer.set_corner_frequency]
    rw [hnd]
    norm_num [DCPhaseLinearizer.resizeDeque]
  · simp

/-- C5 amended: `set_corner_frequency` resizes the queue with
`VecDeque::resize` semantics: growing keeps all queued values and appends
zeros at the back (the newest positions), and shrinking keeps the oldest
queued values (the front) while dropping the most recently pushed excess
at the back. -/
theorem set_corner_frequency_resize_content (st : DCPhaseLinearizer) (freq : ℝ)
    (h : st.buffer.length = st.delay_samples) :
    (st.buffer.length ≤ DCPhaseLinearizer.newDelay st.sample_rate (rustClamp freq 20 800) →
      (st.set_corner_frequency freq).buffer =
        st.buffer ++ List.replicate
          (DCPhaseLinearizer.newDelay st.sample_rate (rustClamp freq 20 800) -
            st.buffer.length) 0) ∧
    (DCPhaseLinearizer.newDelay st.sample_rate (rustClamp freq 20 800) < st.buffer.length →
      (st.set_corner_frequency freq).buffer =
        st.buffer.take (DCPhaseLinearizer.newDelay st.sample_rate (rustClamp freq 20 800))) := by
  simp only [DCPhaseLinearizer.set_corner_frequency]
  split_ifs with hne
  · constructor
    · intro hle
      show DCPhaseLinearizer.resizeDeque st.buffer _ = _
      unfold DCPhaseLinearizer.resizeDeque
      rw [if_neg (by omega)]
    · intro hlt
      show DCPhaseLinearizer.resizeDeque st.buffer _ = _
      unfold DCPhaseLinearizer.resizeDeque
      rw [if_pos (le_of_lt hlt)]
  · rw [not_not] at hne
    constructor
    · intro hle
      have hlen : DCPhaseLinearizer.newDelay st.sample_rate (rustClamp freq 20 800) =
          st.buffer.length := by omega
      rw [hlen]
      simp
    · intro hlt
      omega

/-- C5 witness: the amended resize statement applied at the concrete
empty-queue linearizer state and frequency `30`. -/
theorem set_corner_frequency_resize_content_witness :
    testLinearizer.buffer.length = testLinearizer.delay_samples ∧
    (testLinearizer.buffer.length ≤
        DCPhaseLinearizer.newDelay testLinearizer.sample_rate (rustClamp 30 20 800) →
      (testLinearizer.set_corner_frequency 30).buffer =
        testLinearizer.buffer ++ List.replicate
          (DCPhaseLinearizer.newDelay testLinearizer.sample_rate (rustClamp 30 20 800) -
            testLinearizer.buffer.length) 0) :=
  ⟨rfl, (set_corner_frequency_resize_content testLinearizer 30 rfl).1⟩

/-- C7: whenever the updated envelope is at most the adaptive threshold,
`SimpleAutoCompressor::process` sets `gain_reduction` to exactly `1`
within that call (no blending from its previous value) and the returned
output is `input · 1 · 1.4 = input · 1.4`. -/
theorem no_reduction_branch (c : SimpleAutoCompressor) (input : ℝ)
    (h : c.updatedEnvelope input ≤ c.thresholdAfter input) :
    (c.process input).1.gain_reduction = 1 ∧ (c.process input).2 = input * 1.4 := by
  have hcond : c.updatedEnvelope input ≤
      (0.995 * c.peak_average + 0.005 * c.updatedEnvelope input) * 0.5 := h
  constructor
  · show (if c.updatedEnvelope input ≤
        (0.995 * c.peak_average + 0.005 * c.updatedEnvelope input) * 0.5 then (1 : ℝ)
      else _) = 1
    exact if_pos hcond
  · show input * (if c.updatedEnvelope input ≤
        (0.995 * c.peak_average + 0.005 * c.updatedEnvelope input) * 0.5 then (1 : ℝ)
      else _) * 1.4 = input * 1.4
    rw [if_pos hcond]
    ring

/-- C7 witness: the no-reduction statement applied at the concrete
compressor state with input `0`. -/
theorem no_reduction_branch_witness :
    (testCompressor.updatedEnvelope 0 ≤ testCompressor.thresholdAfter 0) ∧
    (testCompressor.process 0).1.gain_reduction = 1 ∧
      (testCompressor.process 0).2 = 0 * 1.4 := by
  have h : testCompressor.updatedEnvelope 0 ≤ testCompressor.thresholdAfter 0 := by
    norm_num [SimpleAutoCompressor.updatedEnvelope, SimpleAutoCompressor.thresholdAfter,
      testCompressor]
  exact ⟨h, no_reduction_branch testCompressor 0 h⟩

/-- C3: with nonnegative envelope and peak average on entry (and the
attack/release coefficients in `[0,1]`, as in every reachable state), the
gain-reduction branch of `SimpleAutoCompressor::process` is entered only
when the threshold is strictly positive and the updated envelope strictly
exceeds it, so the `log10` argument `envelope/threshold` is strictly
positive; when the threshold is zero the no-reduction branch is taken. -/
theorem compressor_log_guard (c : SimpleAutoCompressor) (input : ℝ)
    (he : 0 ≤ c.envelope) (hp : 0 ≤ c.peak_average)
    (ha1 : 0 ≤ c.attack_coeff) (ha2 : c.attack_coeff ≤ 1)
    (hr1 : 0 ≤ c.release_coeff) (hr2 : c.release_coeff ≤ 1) :
    (¬ c.updatedEnvelope input ≤ c.thresholdAfter input →
      0 < c.thresholdAfter input ∧
        c.thresholdAfter input < c.updatedEnvelope input ∧
        0 < c.updatedEnvelope input / c.thresholdAfter input) ∧
    (c.thresholdAfter input = 0 →
      c.updatedEnvelope input ≤ c.thresholdAfter input) := by
  have habs : (0 : ℝ) ≤ |input| := abs_nonneg input
  have henv : 0 ≤ c.updatedEnvelope input := by
    simp only [SimpleAutoCompressor.updatedEnvelope]
    split_ifs with hgt
    · nlinarith
    · nlinarith
  have hth : 0 ≤ c.thresholdAfter input := by
    unfold SimpleAutoCompressor.thresholdAfter
    nlinarith
  have hzero : c.thresholdAfter input = 0 → c.updatedEnvelope input ≤ 0 := by
    intro h0
    unfold SimpleAutoCompressor.thresholdAfter at h0
    linarith
  constructor
  · intro hgtc
    push_neg at hgtc
    have hthpos : 0 < c.thresholdAfter input := by
      rcases lt_or_eq_of_le hth with hlt | heq
      · exact hlt
      · exact absurd hgtc (by linarith [hzero heq.symm])
    exact ⟨hthpos, hgtc, div_pos (lt_trans hthpos hgtc) hthpos⟩
  · intro h0
    linarith [hzero h0]

/-- C3 witness: the guard statement applied at the concrete compressor
state with input `0`. -/
theorem compressor_log_guard_witness :
    ((0 : ℝ) ≤ testCompressor.envelope ∧ (0 : ℝ) ≤ testCompressor.peak_average) ∧
    (testCompressor.thresholdAfter 0 = 0 →
      testCompressor.updatedEnvelope 0 ≤ testCompressor.thresholdAfter 0) :=
  ⟨⟨by norm_num [testCompressor], by norm_num [testCompressor]⟩,
    (compressor_log_guard testCompressor 0 (by norm_num [testCompressor])
      (by norm_num [testCompressor]) (by norm_num [testCompressor])
      (by norm_num [testCompressor]) (by norm_num [testCompressor])
      (by norm_num [testCompressor])).2⟩

/-- C2: for `sample ∈ [-10,10]` and `drive ∈ [1,10]`, every saturation
variant except Bypass is bounded in absolute value by the variant-specific
bound `satBound`; in particular the Tape bound is `0.5` and the SoftClip
bound is `1`. -/
theorem saturate_bounded (p : AnalogConsoleProcessor) (s : ℝ)
    (h1 : 1 ≤ p.drive) (h2 : p.drive ≤ 10)
    (h3 : -10 ≤ s) (h4 : s ≤ 10)
    (h5 : p.saturation_type ≠ SaturationType.Bypass) :
    |p.saturate s| ≤ satBound p.saturation_type ∧
      satBound SaturationType.Tape = 0.5 ∧ satBound SaturationType.SoftClip = 1 := by
  refine ⟨?_, rfl, rfl⟩
  have hd0 : (0 : ℝ) ≤ p.drive := le_trans zero_le_one h1
  have habs : |s| ≤ 10 := abs_le.mpr ⟨h3, h4⟩
  have habs0 : 0 ≤ |s| := abs_nonneg s
  have hdr : |s * p.drive| ≤ 100 := by
    rw [abs_mul, abs_of_nonneg hd0]
    nlinarith
  simp only [AnalogConsoleProcessor.saturate]
  cases hty : p.saturation_type with
  | Tape =>
    simp only [satBound]
    rw [abs_mul, show |(0.5 : ℝ)| = 0.5 from by norm_num]
    nlinarith [abs_tanh_le_one (s * (p.drive + 1)),
      abs_nonneg (Real.tanh (s * (p.drive + 1)))]
  | Tube =>
    simp only [satBound]
    split_ifs with hdpos
    · have he1 : Real.exp (-(s * p.drive)) ≤ 1 := Real.exp_le_one_iff.mpr (by linarith)
      have he0 : 0 < Real.exp (-(s * p.drive)) := Real.exp_pos _
      rw [abs_le]
      constructor <;> linarith
    · have he1 : Real.exp (s * p.drive) ≤ 1 := Real.exp_le_one_iff.mpr (by linarith)
      have he0 : 0 < Real.exp (s * p.drive) := Real.exp_pos _
      rw [abs_le]
      constructor <;> linarith
  | Transistor =>
    simp only [satBound]
    have hX : (0 : ℝ) ≤ |s * p.drive| ^ (1.5 : ℝ) :=
      Real.rpow_nonneg (abs_nonneg _) _
    have hkey : |s * p.drive| ≤ 1 + |s * p.drive| ^ (1.5 : ℝ) := by
      rcases le_or_lt |s * p.drive| 1 with hle | hgt
      · linarith
      · have h1' : |s * p.drive| ^ (1 : ℝ) ≤ |s * p.drive| ^ (1.5 : ℝ) :=
          Real.rpow_le_rpow_of_exponent_le (le_of_lt hgt) (by norm_num)
        rw [Real.rpow_one] at h1'
        linarith
    have hden : (0 : ℝ) < 1 + |s * p.drive| ^ (1.5 : ℝ) := by linarith
    rw [abs_mul, abs_div, abs_of_pos hden, show |(1.2 : ℝ)| = 1.2 from by norm_num]
    have hq : |s * p.drive| / (1 + |s * p.drive| ^ (1.5 : ℝ)) ≤ 1 :=
      (div_le_one hden).mpr hkey
    nlinarith [div_nonneg (abs_nonneg (s * p.drive)) (le_of_lt hden)]
  | LDR =>
    simp only [satBound]
    have hcs0 : (0 : ℝ) ≤ rustClamp |s * p.drive| 0 1 := le_max_left 0 _
    have hres : (0 : ℝ) < 1 / (0.1 + rustClamp |s * p.drive| 0 1 * 5) := by
      apply div_pos one_pos
      nlinarith
    have hden : (1 : ℝ) ≤ 1 + 1 / (0.1 + rustClamp |s * p.drive| 0 1 * 5) * 0.83 := by
      nlinarith
    rw [abs_div, abs_of_pos (by linarith :
      (0 : ℝ) < 1 + 1 / (0.1 + rustClamp |s * p.drive| 0 1 * 5) * 0.83)]
    calc |s * p.drive| / (1 + 1 / (0.1 + rustClamp |s * p.drive| 0 1 * 5) * 0.83)
        ≤ |s * p.drive| := div_le_self (abs_nonneg _) hden
      _ ≤ 100 := hdr
  | Cubic =>
    simp only [satBound]
    have hmul : |p.drive * s * s * s| = p.drive * (|s| * |s| * |s|) := by
      rw [abs_mul, abs_mul, abs_mul, abs_of_nonneg hd0]
      ring
    have hcube : |s| * |s| * |s| ≤ 1000 := by nlinarith
    have hterm : p.drive * (|s| * |s| * |s|) ≤ 10 * 1000 :=
      mul_le_mul h2 hcube (by positivity) (by norm_num)
    calc |s + p.drive * s * s * s| ≤ |s| + |p.drive * s * s * s| := abs_add _ _
      _ ≤ 10010 := by
          rw [hmul]
          linarith
  | Quintic =>
    simp only [satBound]
    have hp3 : |s| ^ 3 ≤ 1000 := by
      calc |s| ^ 3 ≤ 10 ^ 3 := pow_le_pow_left₀ habs0 habs 3
        _ = 1000 := by norm_num
    have hp5 : |s| ^ 5 ≤ 100000 := by
      calc |s| ^ 5 ≤ 10 ^ 5 := pow_le_pow_left₀ habs0 habs 5
        _ = 100000 := by norm_num
    have ha : |0.5 * p.drive * s ^ 3| ≤ 5000 := by
      rw [abs_mul, abs_mul, abs_pow, abs_of_nonneg hd0,
        show |(0.5 : ℝ)| = 0.5 from by norm_num]
      nlinarith [pow_nonneg habs0 3]
    have hb : |0.3 * p.drive * s ^ 5| ≤ 300000 := by
      rw [abs_mul, abs_mul, abs_pow, abs_of_nonneg hd0,
        show |(0.3 : ℝ)| = 0.3 from by norm_num]
      nlinarith [pow_nonneg habs0 5]
    calc |s + 0.5 * p.drive * s ^ 3 + 0.3 * p.drive * s ^ 5|
        ≤ |s + 0.5 * p.drive * s ^ 3| + |0.3 * p.drive * s ^ 5| := abs_add _ _
      _ ≤ |s| + |0.5 * p.drive * s ^ 3| + |0.3 * p.drive * s ^ 5| := by
          linarith [abs_add s (0.5 * p.drive * s ^ 3)]
      _ ≤ 310010 := by linarith
  | SoftClip =>
    simp only [satBound]
    have hden : (0 : ℝ) < 1 + |s * p.drive| := by
      linarith [abs_nonneg (s * p.drive)]
    rw [abs_div, abs_of_pos hden]
    exact (div_le_one hden).mpr (by linarith)
  | Bypass =>
    exact absurd hty h5

/-- C2 witness: the bound statement applied at a concrete Tape-mode
processor with `drive = 1` and sample `0`. -/
theorem saturate_bounded_witness :
    ((1 : ℝ) ≤ (1 : ℝ) ∧ (1 : ℝ) ≤ (10 : ℝ) ∧
      SaturationType.Tape ≠ SaturationType.Bypass) ∧
    |(⟨1, SaturationType.Tape, 0.05, 0, 0, ⟨0.995, 0, 0⟩, ⟨0.995, 0, 0⟩,
        testLinearizer, testLinearizer⟩ : AnalogConsoleProcessor).saturate 0| ≤
      satBound (⟨1, SaturationType.Tape, 0.05, 0, 0, ⟨0.995, 0, 0⟩, ⟨0.995, 0, 0⟩,
        testLinearizer, testLinearizer⟩ : AnalogConsoleProcessor).saturation_type :=
  ⟨⟨le_refl 1, by norm_num, by simp⟩,
    (saturate_bounded _ 0 (le_refl 1) (by norm_num) (by norm_num) (by norm_num)
      (by simp)).1⟩

/-- Helper: `AllpassFilter::set_sample_rate` leaves `a1` unchanged for any
coefficient computed at a corner frequency below half the old rate,
because the inverse frequency calculation already uses the new rate, which
cancels the rate change exactly. -/
lemma allpass_rate_change_cancels (f fs fs2 : ℝ)
    (hf : 0 < f) (hfs : 2 * f < fs) (hfs2 : 0 < fs2) (hfspos : 0 < fs) :
    ((AllpassFilter.new fs f).set_sample_rate fs2).a1 = (AllpassFilter.new fs f).a1 := by
  have hπ : (0 : ℝ) < Real.pi := Real.pi_pos
  have hθpos : 0 < Real.pi * f / fs := by positivity
  have hθlt : Real.pi * f / fs < Real.pi / 2 := by
    rw [div_lt_div_iff₀ hfspos (by norm_num : (0 : ℝ) < 2)]
    nlinarith
  have ht0 : 0 < Real.tan (Real.pi * f / fs) :=
    Real.tan_pos_of_pos_of_lt_pi_div_two hθpos hθlt
  set t := Real.tan (Real.pi * f / fs) with htdef
  have ht1 : t + 1 ≠ 0 := ne_of_gt (by linarith)
  have hsub : 1 - (t - 1) / (t + 1) = 2 / (t + 1) := by
    field_simp
    ring
  have hratio : ((t - 1) / (t + 1) + 1) / (1 - (t - 1) / (t + 1)) = t := by
    rw [hsub, div_eq_iff (div_ne_zero two_ne_zero ht1)]
    field_simp
    ring
  have harctan : Real.arctan t = Real.pi * f / fs :=
    Real.arctan_tan (by linarith) hθlt
  show AllpassFilter.calculate_coefficient
      (fs2 * Real.arctan (((t - 1) / (t + 1) + 1) / (1 - (t - 1) / (t + 1))) / Real.pi)
      fs2 = (t - 1) / (t + 1)
  rw [hratio, harctan]
  show (Real.tan (Real.pi * (fs2 * (Real.pi * f / fs) / Real.pi) / fs2) - 1) /
      (Real.tan (Real.pi * (fs2 * (Real.pi * f / fs) / Real.pi) / fs2) + 1) =
      (t - 1) / (t + 1)
  have hang : Real.pi * (fs2 * (Real.pi * f / fs) / Real.pi) / fs2 = Real.pi * f / fs := by
    field_simp
    ring
  rw [hang, ← htdef]

/-- C1 (code bug): after constructing the filter for 30 Hz at 44100 Hz and
calling `set_sample_rate(88200)`, the coefficient is still the one for the
old rate, `(tan(π·30/44100)−1)/(tan(π·30/44100)+1)`, and that value
differs from the coefficient the claim requires at the new rate,
`(tan(π·30/88200)−1)/(tan(π·30/88200)+1)`: the rate assignment before the
inverse frequency calculation makes the recomputation cancel, so a stale
coefficient stays in use across the rate change. -/
theorem set_sample_rate_stale_a1 :
    ((AllpassFilter.new 44100 30).set_sample_rate 88200).a1 =
      AllpassFilter.calculate_coefficient 30 44100 ∧
    AllpassFilter.calculate_coefficient 30 44100 ≠
      AllpassFilter.calculate_coefficient 30 88200 := by
  constructor
  · exact allpass_rate_change_cancels 30 44100 88200 (by norm_num) (by norm_num)
      (by norm_num) (by norm_num)
  · have hπ : (0 : ℝ) < Real.pi := Real.pi_pos
    have hθ2pos : 0 < Real.pi * 30 / 88200 := by positivity
    have hθ1lt : Real.pi * 30 / 44100 < Real.pi / 2 := by
      rw [div_lt_div_iff₀ (by norm_num : (0 : ℝ) < 44100) (by norm_num : (0 : ℝ) < 2)]
      nlinarith
    have hlt : Real.pi * 30 / 88200 < Real.pi * 30 / 44100 := by
      rw [div_lt_div_iff₀ (by norm_num : (0 : ℝ) < 88200) (by norm_num : (0 : ℝ) < 44100)]
      nlinarith
    have htlt : Real.tan (Real.pi * 30 / 88200) < Real.tan (Real.pi * 30 / 44100) :=
      Real.tan_lt_tan_of_nonneg_of_lt_pi_div_two (le_of_lt hθ2pos) hθ1lt hlt
    have ht2pos : 0 < Real.tan (Real.pi * 30 / 88200) :=
      Real.tan_pos_of_pos_of_lt_pi_div_two hθ2pos (lt_trans hlt hθ1lt)
    intro heq
    simp only [AllpassFilter.calculate_coefficient] at heq
    set t1 := Real.tan (Real.pi * 30 / 44100) with ht1def
    set t2 := Real.tan (Real.pi * 30 / 88200) with ht2def
    have h1 : t1 + 1 ≠ 0 := ne_of_gt (by linarith)
    have h2 : t2 + 1 ≠ 0 := ne_of_gt (by linarith)
    rw [div_eq_div_iff h1 h2] at heq
    nlinarith [heq]

end
